import Mathlib

/-!
Shallow embedding of the player-development core of this repository
(`bootstrapPot`, `develop` and the module-level `potEstimator` from
src/src/deion/worker/core/league/updateMetaNameRegion.ts).

Conventions of the embedding:
* TypeScript numbers that the code treats as integers (ratings, ages,
  weights) are `ℤ`; the regression formula and its decimal coefficients
  are exact `ℚ` arithmetic; `Math.round` is Mathlib's `round`
  (both equal `⌊x + 1/2⌋`).
* The impure external strategy functions (`overrides.core.player.*`,
  `random.randInt`) are a record `Overrides σ`; randomness is made
  explicit by threading a state of type `σ` through every call, in the
  sequential order of the source.
* Functions that in the source mutate an argument are embedded as
  functions returning the updated value.  `bootstrapPot` additionally
  returns the value of the caller-visible `ratings` binding after the
  call (second component) so that the frame property is a statement,
  not a convention: each branch of the definition returns whatever the
  source leaves in the caller's variable.
* TypeScript string-keyed dictionaries are association lists; a lookup
  of a missing key (which yields `undefined` in JS) is modelled as `0`.
  No claim exercises a missing-key lookup.
* Thrown exceptions become `Except.error` with the source's message.
-/

set_option maxHeartbeats 1000000

/-- The value of `process.env.SPORT`, which the source branches on at
module level (`potEstimator` exists only for football) and inside
`develop` (basketball vs multi-position sports). -/
inductive Sport where
  | football
  | basketball
  | other
  deriving DecidableEq

/-- The fields of `MinimalPlayerRatings` that the source reads or
writes: `season`, `hgt`, `stre` (for `genWeight`), `ovr`, `pot`, the
per-position dictionaries `ovrs` and `pots`, `pos` and `skills`.
Attributes only touched inside the abstract strategy functions are
behind the `Overrides` interface. -/
structure MinimalPlayerRatings where
  season : ℤ
  hgt : ℤ
  stre : ℤ
  ovr : ℤ
  pot : ℤ
  ovrs : List (String × ℤ)
  pots : List (String × ℤ)
  pos : String
  skills : List String
  deriving DecidableEq

/-- The fields of the player object that `develop` reads or writes. -/
structure Player where
  born_loc : String
  born_year : ℤ
  draft_ovr : ℤ
  draft_pot : ℤ
  draft_skills : List String
  pos : Option String
  ratings : List MinimalPlayerRatings
  tid : ℤ
  weight : ℤ
  deriving DecidableEq

/-- External collaborators of the module: the sport strategy
(`overrides.core.player.developSeason` / `ovr` / `genWeight` / `pos`,
`overrides.common.constants.POSITIONS`, the `skills` tagger) and the
random source `random.randInt`.  `developSeason` takes the optional
coaching rank (omitted in bootstrap rollouts) and threads the random
state `σ`, as does `randInt`. -/
structure Overrides (σ : Type) where
  developSeason : MinimalPlayerRatings → ℤ → Option ℚ → σ → MinimalPlayerRatings × σ
  ovr : MinimalPlayerRatings → Option String → ℤ
  genWeight : ℤ → ℤ → ℤ
  pos : MinimalPlayerRatings → String
  POSITIONS : List String
  skills : MinimalPlayerRatings → List String
  randInt : ℤ → ℤ → σ → ℤ × σ

/-- Association-list lookup for the TS dictionary access `d[key]`,
returning 0 for a missing key (see the module comment). -/
def lookupD : List (String × ℤ) → String → ℤ
  | [], _ => 0
  | (k, v) :: rest, key => if k = key then v else lookupD rest key

/-- Modelled from the spec: `helpers.bound` (imported from outside the
given sources) clamps a value into `[lo, hi]` — the spec's "rounded to
the nearest integer and clamped to [0, 100]". -/
def bound (x lo hi : ℤ) : ℤ :=
  if x < lo then lo else if x > hi then hi else x

/-- Modelled from the spec: `helpers.deepCopy` (imported from outside
the given sources) has value semantics with no shared references; on
immutable Lean values it is the identity. -/
def deepCopy (r : MinimalPlayerRatings) : MinimalPlayerRatings := r

/-- Coefficient rows of the football regression table `coeffsByPos`. -/
structure Coeffs where
  intercept : ℚ
  age : ℚ
  ovr : ℚ
  interaction : ℚ

/-- The football regression table, keyed by position code, with the
exact decimal coefficients of the source. -/
def coeffsByPos : String → Option Coeffs
  | "CB" => some ⟨41.22339, -1.55671, 1.73043, -0.02711⟩
  | "DL" => some ⟨50.39196, -1.91082, 2.00579, -0.03759⟩
  | "K" => some ⟨35.997, -1.349, 1.834, -0.032⟩
  | "KR" => some ⟨39.62046, -1.47839, 1.67194, -0.02539⟩
  | "LB" => some ⟨36.72401, -1.37224, 1.91346, -0.03444⟩
  | "OL" => some ⟨38.22024, -1.44549, 2.13113, -0.04226⟩
  | "P" => some ⟨36.09308, -1.3511, 1.90802, -0.03557⟩
  | "PR" => some ⟨38.16013, -1.42061, 1.93835, -0.03559⟩
  | "QB" => some ⟨47.34247, -1.78499, 2.12059, -0.04236⟩
  | "RB" => some ⟨18.70945, -0.69679, 2.40819, -0.05307⟩
  | "S" => some ⟨42.84427, -1.62036, 1.99803, -0.03686⟩
  | "TE" => some ⟨28.15031, -1.05288, 2.27735, -0.04792⟩
  | "WR" => some ⟨46.83016, -1.75311, 1.76216, -0.02886⟩
  | _ => none

/-- The module-level `potEstimator` closure (configured only when the
sport is football): coefficient lookup, throwing on an unknown
position, then the linear-regression formula. -/
def potEstimator (ovr : ℤ) (age : ℤ) (pos : String) : Except String ℚ :=
  match coeffsByPos pos with
  | none => .error ("Invalid position \"" ++ pos ++ "\" in potEstimator")
  | some coeffs =>
    .ok (coeffs.intercept + coeffs.age * (age : ℚ) + coeffs.ovr * (ovr : ℚ) +
      coeffs.interaction * (age : ℚ) * (ovr : ℚ))

/-- `NUM_SIMULATIONS = 20` trials of the bootstrap simulation. -/
def NUM_SIMULATIONS : ℕ := 20

/-- The expression `pos ? ratings.ovrs[pos] : ratings.ovr`, used both
for the early return at age ≥ 29 and to seed a trial's maximum. -/
def currentOvr (r : MinimalPlayerRatings) (pos : Option String) : ℤ :=
  match pos with
  | some p => lookupD r.ovrs p
  | none => r.ovr

/-- The inner `for (let ageTemp = age + 1; ageTemp < 30; ageTemp++)`
loop of one bootstrap trial: apply `developSeason` (purposely with no
coaching rank) to the trial's private copy, read the overall at `pos`,
and keep the running maximum.  Arguments: copied ratings, running
maximum, next age, remaining iteration count, random state. -/
def simSeasons (o : Overrides σ) (pos : Option String) :
    MinimalPlayerRatings → ℤ → ℤ → ℕ → σ → ℤ × σ
  | _, maxOvr, _, 0, s => (maxOvr, s)
  | copiedRatings, maxOvr, ageTemp, Nat.succ n, s =>
    let ds := o.developSeason copiedRatings ageTemp none s
    let cOvr := o.ovr ds.1 pos
    simSeasons o pos ds.1 (if cOvr > maxOvr then cOvr else maxOvr) (ageTemp + 1) n ds.2

/-- One bootstrap trial: deep-copy the snapshot, seed the maximum with
the current overall, and simulate the seasons from `age + 1` up to and
including 29. -/
def runTrial (o : Overrides σ) (ratings : MinimalPlayerRatings) (age : ℤ)
    (pos : Option String) (s : σ) : ℤ × σ :=
  let copiedRatings := deepCopy ratings
  let maxOvr := currentOvr ratings pos
  simSeasons o pos copiedRatings maxOvr (age + 1) (29 - age).toNat s

/-- The `range(NUM_SIMULATIONS).map(...)` of bootstrap trials, run
sequentially against the shared random stream as in the source. -/
def runTrials (o : Overrides σ) (ratings : MinimalPlayerRatings) (age : ℤ)
    (pos : Option String) : ℕ → σ → List ℤ × σ
  | 0, s => ([], s)
  | Nat.succ n, s =>
    let t := runTrial o ratings age pos s
    let rest := runTrials o ratings age pos n t.2
    (t.1 :: rest.1, rest.2)

/-- Modelled from the spec: lodash `orderBy` with default settings
(third-party, not in the given sources) sorts the list ascending. -/
def orderBy (l : List ℤ) : List ℤ := List.insertionSort (· ≤ ·) l

/-- The selected index `Math.floor(0.75 * NUM_SIMULATIONS)`. -/
def percentileIndex : ℕ := (⌊(0.75 : ℚ) * (NUM_SIMULATIONS : ℚ)⌋).toNat

/-- `bootstrapPot(ratings, age, pos?)`.  The result triple is: the
returned value or thrown error; the value of the caller-visible
`ratings` binding after the call (the source mutates only the per-trial
`copiedRatings`, so every branch returns the input); and the final
random state. -/
def bootstrapPot (sport : Sport) (o : Overrides σ) (ratings : MinimalPlayerRatings)
    (age : ℤ) (pos : Option String) (s : σ) :
    Except String ℤ × MinimalPlayerRatings × σ :=
  if 29 ≤ age then
    (.ok (currentOvr ratings pos), ratings, s)
  else if sport = Sport.football then
    match pos with
    | none => (.error "pos is required for potEstimator", ratings, s)
    | some p =>
      let ovr := lookupD ratings.ovrs p
      match potEstimator ovr age p with
      | .error e => (.error e, ratings, s)
      | .ok pot0 =>
        let jr := o.randInt (-2) 2 s
        let pot : ℚ := pot0 + (jr.1 : ℚ)
        if (ovr : ℚ) > pot then (.ok ovr, ratings, jr.2)
        else (.ok (bound (round pot) 0 100), ratings, jr.2)
  else
    let trials := runTrials o ratings age pos NUM_SIMULATIONS s
    (.ok ((orderBy trials.1).getD percentileIndex 0), ratings, trials.2)

/-- Modelled from the spec: `PLAYER.UNDRAFTED`, the undrafted
team-assignment sentinel imported from outside the given sources.  Its
concrete value is not exercised by any claim. -/
def PLAYER_UNDRAFTED : ℤ := -2

/-- The two special-teams codes `develop` bans from being the primary
position: `const bannedPositions = ["KR", "PR"]`. -/
def bannedPositions : List String := ["KR", "PR"]

/-- The `if (newWeight - oldWeight > 10) ... else if (... < -10) ...`
weight-change clamp applied per loop iteration for football. -/
def clampWeight (oldWeight newWeight : ℤ) : ℤ :=
  if newWeight - oldWeight > 10 then oldWeight + 10
  else if newWeight - oldWeight < -10 then oldWeight - 10
  else newWeight

/-- State carried by `develop`'s `for (let i = 0; i < years; i++)`
loop: the last ratings row (mutated in place by `developSeason`), the
`age` variable, `p.weight`, and the random state. -/
structure LoopState (σ : Type) where
  ratings : MinimalPlayerRatings
  age : ℤ
  weight : ℤ
  rng : σ

/-- One iteration of `develop`'s years loop: conditionally increment
`age` (only for new players or multi-year development), call
`developSeason` with the coaching rank, and for football clamp the
weight change produced by `genWeight`. -/
def developLoopStep (sport : Sport) (o : Overrides σ) (years : ℕ) (newPlayer : Bool)
    (coachingRank : ℚ) (st : LoopState σ) : LoopState σ :=
  let age := if newPlayer = true ∨ 1 < years then st.age + 1 else st.age
  let ds := o.developSeason st.ratings age (some coachingRank) st.rng
  let weight :=
    if sport = Sport.football then clampWeight st.weight (o.genWeight ds.1.hgt ds.1.stre)
    else st.weight
  ⟨ds.1, age, weight, ds.2⟩

/-- The `POSITIONS.reduce` of `develop`'s multi-position branch:
collect an `ovrs` entry for every position code in order, while
tracking, among the positions not in `bannedPositions`, the first one
whose overall strictly exceeds the running maximum (`maxOvr` starts at
-Infinity, modelled by `none`). -/
def selectOvrs (o : Overrides σ) (r : MinimalPlayerRatings) :
    List String → Option (String × ℤ) → List (String × ℤ) × Option (String × ℤ)
  | [], best => ([], best)
  | pos2 :: rest, best =>
    let v := o.ovr r (some pos2)
    let eligible := !(decide (pos2 ∈ bannedPositions)) &&
      (match best with
       | none => true
       | some b => decide (b.2 < v))
    let best' := if eligible then some (pos2, v) else best
    let res := selectOvrs o r rest best'
    ((pos2, v) :: res.1, res.2)

/-- The second `POSITIONS.reduce` of `develop`'s multi-position branch:
a `pots` entry per position via `bootstrapPot`, threading the random
state; a thrown error propagates. -/
def computePots (sport : Sport) (o : Overrides σ) (r : MinimalPlayerRatings) (age : ℤ) :
    List String → σ → Except String (List (String × ℤ) × σ)
  | [], s => .ok ([], s)
  | pos2 :: rest, s =>
    match bootstrapPot sport o r age (some pos2) s with
    | (.error e, _, _) => .error e
    | (.ok v, _, s') =>
      match computePots sport o r age rest s' with
      | .error e => .error e
      | .ok (pots, s'') => .ok ((pos2, v) :: pots, s'')

/-- The basketball post-processing of `develop` (lines 240-252 of the
source): recompute `ovr`, then `pot` via `bootstrapPot` unless
`skipPot`, then resolve the position (manual override if the player
has a string `pos` property, else the strategy's position function). -/
def developPostBasketball (sport : Sport) (o : Overrides σ) (pPos : Option String)
    (r1 : MinimalPlayerRatings) (age : ℤ) (skipPot : Bool) (s : σ) :
    Except String (MinimalPlayerRatings × σ) :=
  let r2 := { r1 with ovr := o.ovr r1 none }
  let potStep : Except String (MinimalPlayerRatings × σ) :=
    if skipPot then .ok (r2, s)
    else
      match bootstrapPot sport o r2 age none s with
      | (.ok v, _, s') => .ok ({ r2 with pot := v }, s')
      | (.error e, _, _) => .error e
  match potStep with
  | .error e => .error e
  | .ok (r3, s2) =>
    let r4 :=
      match pPos with
      | some ps => { r3 with pos := ps }
      | none => { r3 with pos := o.pos r3 }
    .ok ({ r4 with skills := o.skills r4 }, s2)

/-- The multi-position post-processing of `develop` (lines 253-292 of
the source): build `ovrs` and the best eligible position, build `pots`
unless `skipPot`, throw if no eligible position was found, copy the
chosen position's entries into `ovr`/`pot`, resolve the position
override, and compute skills. -/
def developPostMulti (sport : Sport) (o : Overrides σ) (pPos : Option String)
    (r1 : MinimalPlayerRatings) (age : ℤ) (skipPot : Bool) (s : σ) :
    Except String (MinimalPlayerRatings × σ) :=
  let sel := selectOvrs o r1 o.POSITIONS none
  let r2 := { r1 with ovrs := sel.1 }
  let potStep : Except String (MinimalPlayerRatings × σ) :=
    if skipPot then .ok (r2, s)
    else
      match computePots sport o r2 age o.POSITIONS s with
      | .error e => .error e
      | .ok (potsList, s') => .ok ({ r2 with pots := potsList }, s')
  match potStep with
  | .error e => .error e
  | .ok (r3, s2) =>
    match sel.2 with
    | none => .error "Should never happen"
    | some best =>
      let r4 := { r3 with ovr := lookupD r3.ovrs best.1, pot := lookupD r3.pots best.1 }
      let r5 :=
        match pPos with
        | some ps => { r4 with pos := ps }
        | none => { r4 with pos := best.1 }
      .ok ({ r5 with skills := o.skills r5 }, s2)

/-- The post-loop part of `develop` ("Run these even for players
developing 0 seasons"), which branches on the sport. -/
def developPost (sport : Sport) (o : Overrides σ) (pPos : Option String)
    (r1 : MinimalPlayerRatings) (age : ℤ) (skipPot : Bool) (s : σ) :
    Except String (MinimalPlayerRatings × σ) :=
  if sport = Sport.basketball then developPostBasketball sport o pPos r1 age skipPot s
  else developPostMulti sport o pPos r1 age skipPot s

/-- The tail of `develop`: write the finalized ratings row back as the
last element, keep the mutated weight, sync the draft record when the
player is undrafted, and for new players shift the birth year back by
`years`. -/
def finishDevelop (p : Player) (r : MinimalPlayerRatings) (weight : ℤ) (years : ℕ)
    (newPlayer skipPot : Bool) : Player :=
  { p with
    ratings := p.ratings.dropLast ++ [r]
    weight := weight
    draft_ovr := if p.tid = PLAYER_UNDRAFTED then r.ovr else p.draft_ovr
    draft_pot := if p.tid = PLAYER_UNDRAFTED ∧ skipPot = false then r.pot else p.draft_pot
    draft_skills := if p.tid = PLAYER_UNDRAFTED then r.skills else p.draft_skills
    born_year := if newPlayer then p.born_year - (years : ℤ) else p.born_year }

/-- `develop(p, years, newPlayer, coachingRank, skipPot)`: work on the
last ratings row, compute the entry age as `season - born.year`, run
the years loop, then the sport-specific post-processing and the
finishing writes.  The JS code would crash on an empty ratings list
(`p.ratings[p.ratings.length - 1]` is `undefined`); that is the
`TypeError` branch. -/
def develop (sport : Sport) (o : Overrides σ) (p : Player) (years : ℕ)
    (newPlayer : Bool) (coachingRank : ℚ) (skipPot : Bool) (s : σ) :
    Except String (Player × σ) :=
  match p.ratings.getLast? with
  | none => .error "TypeError: p.ratings is empty"
  | some r0 =>
    let st := (developLoopStep sport o years newPlayer coachingRank)^[years]
      ⟨r0, r0.season - p.born_year, p.weight, s⟩
    match developPost sport o p.pos st.ratings st.age skipPot st.rng with
    | .error e => .error e
    | .ok (rFinal, s2) => .ok (finishDevelop p rFinal st.weight years newPlayer skipPot, s2)

/-- Instrumented overrides used to observe which age values `develop`'s
loop passes to `developSeason`: the threaded state is the log of those
ages, and every strategy function is otherwise inert. -/
def logOverrides : Overrides (List ℤ) where
  developSeason := fun r age _ s => (r, s ++ [age])
  ovr := fun _ _ => 0
  genWeight := fun _ _ => 0
  pos := fun _ => "F"
  POSITIONS := []
  skills := fun _ => []
  randInt := fun lo _ s => (lo, s)

/-! Concrete instances used by the witnesses. -/

/-- A tiny deterministic strategy instance: `developSeason` leaves the
ratings unchanged, every overall is 50, the selector picks "C", and
`randInt` returns its lower bound. -/
def sampleOverrides : Overrides Unit where
  developSeason := fun r _ _ s => (r, s)
  ovr := fun _ _ => 50
  genWeight := fun _ _ => 200
  pos := fun _ => "C"
  POSITIONS := ["QB", "RB", "KR", "PR"]
  skills := fun _ => []
  randInt := fun lo _ s => (lo, s)

/-- A sample snapshot with position-keyed overalls. -/
def sampleRatings : MinimalPlayerRatings :=
  ⟨2020, 50, 50, 40, 45, [("QB", 40), ("RB", 38), ("KR", 42), ("PR", 41)], [], "QB", []⟩

/-- A minimal basketball snapshot. -/
def tinyRatings : MinimalPlayerRatings := ⟨2020, 0, 0, 40, 45, [], [], "G", []⟩

/-- A basketball player whose manual position override is present but
equal to the empty string. -/
def tinyPlayer : Player := ⟨"USA", 1995, 0, 0, [], some "", [tinyRatings], 5, 180⟩

/-- A football snapshot for a player who is 29 in 2024. -/
def fbRatings : MinimalPlayerRatings := ⟨2024, 10, 20, 40, 45, [], [], "RB", []⟩

/-- A football player with no manual position override. -/
def fbPlayer : Player := ⟨"USA", 1995, 0, 0, [], none, [fbRatings], 5, 180⟩

/-- The final ratings row produced by `develop Sport.football
sampleOverrides fbPlayer 0 false 15.5 false ()` (checked by the kernel
in the C8 witness). -/
def fbRatingsDev : MinimalPlayerRatings :=
  ⟨2024, 10, 20, 50, 50,
    [("QB", 50), ("RB", 50), ("KR", 50), ("PR", 50)],
    [("QB", 50), ("RB", 50), ("KR", 50), ("PR", 50)], "QB", []⟩

/-- The player produced by `develop Sport.football sampleOverrides fbPlayer
0 false 15.5 false ()` (checked by the kernel in the C8 witness). -/
def fbPlayerDev : Player :=
  ⟨"USA", 1995, 0, 0, [], none, [fbRatingsDev], 5, 180⟩

/-- The final ratings row produced by `develop Sport.basketball
sampleOverrides tinyPlayer 0 false 15.5 true ()` (checked by the kernel
in the C9 counterexample). -/
def tinyRatingsDev : MinimalPlayerRatings := ⟨2020, 0, 0, 50, 45, [], [], "", []⟩

/-- The player produced by `develop Sport.basketball sampleOverrides
tinyPlayer 0 false 15.5 true ()` (checked by the kernel in the C9
counterexample). -/
def tinyPlayerDev : Player :=
  ⟨"USA", 1995, 0, 0, [], some "", [tinyRatingsDev], 5, 180⟩

/-! Helper lemmas about the embedded definitions. -/

lemma lookupD_map_self (f : String → ℤ) (l : List String) (q : String) (h : q ∈ l) :
    lookupD (l.map fun k => (k, f k)) q = f q := by
  induction l with
  | nil => simp at h
  | cons a t ih =>
    simp only [List.map_cons, lookupD]
    by_cases ha : a = q
    · subst ha; simp
    · rcases List.mem_cons.mp h with h1 | h1
      · exact absurd h1.symm ha
      · simpa [ha] using ih h1

lemma lookupD_mem_of_mem_keys (l : List (String × ℤ)) (q : String)
    (h : q ∈ l.map Prod.fst) : (q, lookupD l q) ∈ l := by
  induction l with
  | nil => simp at h
  | cons a t ih =>
    obtain ⟨k, v⟩ := a
    simp only [lookupD]
    by_cases hk : k = q
    · subst hk; simp
    · simp only [List.map_cons] at h
      rcases List.mem_cons.mp h with h1 | h1
      · exact absurd h1.symm hk
      · rw [if_neg hk]
        exact List.mem_cons_of_mem _ (ih h1)

lemma getD_mem (l : List ℤ) (n : ℕ) (d : ℤ) (h : n < l.length) : l.getD n d ∈ l := by
  rw [List.getD_eq_getElem l d h]
  exact List.getElem_mem h

lemma percentileIndex_eq : percentileIndex = 15 := by
  have : ⌊(0.75 : ℚ) * (NUM_SIMULATIONS : ℚ)⌋ = 15 := by norm_num [NUM_SIMULATIONS]
  simp [percentileIndex, this]

lemma le_bound_of (x ov : ℤ) (h1 : ov ≤ x) (h2 : ov ≤ 100) : ov ≤ bound x 0 100 := by
  simp only [bound]
  split
  · omega
  · split <;> omega

lemma bound_bounds (x : ℤ) : 0 ≤ bound x 0 100 ∧ bound x 0 100 ≤ 100 := by
  simp only [bound]
  split
  · omega
  · split <;> omega

lemma le_simSeasons (o : Overrides σ) (pos : Option String) :
    ∀ (n : ℕ) (cr : MinimalPlayerRatings) (mx ageTemp : ℤ) (s : σ),
      mx ≤ (simSeasons o pos cr mx ageTemp n s).1 := by
  intro n
  induction n with
  | zero => intro cr mx ageTemp s; simp [simSeasons]
  | succ n ih =>
    intro cr mx ageTemp s
    simp only [simSeasons]
    refine le_trans ?_ (ih _ _ _ _)
    split
    · omega
    · exact le_refl _

lemma simSeasons_bounds (o : Overrides σ) (pos : Option String)
    (hov : ∀ r q, 0 ≤ o.ovr r q ∧ o.ovr r q ≤ 100) :
    ∀ (n : ℕ) (cr : MinimalPlayerRatings) (mx ageTemp : ℤ) (s : σ),
      0 ≤ mx → mx ≤ 100 →
      0 ≤ (simSeasons o pos cr mx ageTemp n s).1 ∧ (simSeasons o pos cr mx ageTemp n s).1 ≤ 100 := by
  intro n
  induction n with
  | zero => intro cr mx ageTemp s h0 h1; simp [simSeasons]; omega
  | succ n ih =>
    intro cr mx ageTemp s h0 h1
    simp only [simSeasons]
    rcases hov (o.developSeason cr ageTemp none s).1 pos with ⟨hl, hr⟩
    refine ih _ _ _ _ ?_ ?_ <;> split <;> omega

lemma runTrial_ge (o : Overrides σ) (r : MinimalPlayerRatings) (age : ℤ)
    (pos : Option String) (s : σ) : currentOvr r pos ≤ (runTrial o r age pos s).1 :=
  le_simSeasons o pos _ _ _ _ _

lemma runTrial_bounds (o : Overrides σ) (hov : ∀ r q, 0 ≤ o.ovr r q ∧ o.ovr r q ≤ 100)
    (r : MinimalPlayerRatings) (age : ℤ) (pos : Option String) (s : σ)
    (h0 : 0 ≤ currentOvr r pos) (h1 : currentOvr r pos ≤ 100) :
    0 ≤ (runTrial o r age pos s).1 ∧ (runTrial o r age pos s).1 ≤ 100 :=
  simSeasons_bounds o pos hov _ _ _ _ _ h0 h1

lemma runTrials_length (o : Overrides σ) (r : MinimalPlayerRatings) (age : ℤ)
    (pos : Option String) : ∀ (n : ℕ) (s : σ), ((runTrials o r age pos n s).1).length = n := by
  intro n
  induction n with
  | zero => intro s; simp [runTrials]
  | succ n ih => intro s; simp [runTrials, ih]

lemma runTrials_mem (o : Overrides σ) (r : MinimalPlayerRatings) (age : ℤ)
    (pos : Option String) : ∀ (n : ℕ) (s : σ) (m : ℤ), m ∈ (runTrials o r age pos n s).1 →
      ∃ s0, m = (runTrial o r age pos s0).1 := by
  intro n
  induction n with
  | zero => intro s m hm; simp [runTrials] at hm
  | succ n ih =>
    intro s m hm
    simp only [runTrials, List.mem_cons] at hm
    rcases hm with hm | hm
    · exact ⟨s, hm⟩
    · exact ih _ _ hm

lemma orderBy_perm (l : List ℤ) : List.Perm (orderBy l) l := List.perm_insertionSort _ l

lemma orderBy_length (l : List ℤ) : (orderBy l).length = l.length :=
  (orderBy_perm l).length_eq

lemma orderBy_sorted (l : List ℤ) : (orderBy l).Sorted (· ≤ ·) :=
  List.sorted_insertionSort _ l

lemma orderBy_mem {l : List ℤ} {x : ℤ} (h : x ∈ orderBy l) : x ∈ l :=
  (orderBy_perm l).mem_iff.mp h

lemma bootstrapPot_age29 (sport : Sport) (o : Overrides σ) (r : MinimalPlayerRatings)
    (age : ℤ) (pos : Option String) (s : σ) (h : 29 ≤ age) :
    bootstrapPot sport o r age pos s = (.ok (currentOvr r pos), r, s) := by
  simp [bootstrapPot, h]

lemma bootstrapPot_noPos (o : Overrides σ) (r : MinimalPlayerRatings) (age : ℤ) (s : σ)
    (h : age < 29) :
    bootstrapPot Sport.football o r age none s =
      (.error "pos is required for potEstimator", r, s) := by
  simp [bootstrapPot, not_le.mpr h]

lemma bootstrapPot_badPos (o : Overrides σ) (r : MinimalPlayerRatings) (age : ℤ) (s : σ)
    (p : String) (hage : age < 29) (hp : coeffsByPos p = none) :
    bootstrapPot Sport.football o r age (some p) s =
      (.error ("Invalid position \"" ++ p ++ "\" in potEstimator"), r, s) := by
  simp [bootstrapPot, not_le.mpr hage, potEstimator, hp]

lemma bootstrapPot_snapshot (sport : Sport) (o : Overrides σ) (r : MinimalPlayerRatings)
    (age : ℤ) (pos : Option String) (s : σ) :
    (bootstrapPot sport o r age pos s).2.1 = r := by
  simp only [bootstrapPot]
  split
  · rfl
  · split
    · split
      · rfl
      · split
        · rfl
        · split <;> rfl
    · rfl

lemma bootstrapPot_ge {sport : Sport} {o : Overrides σ} {r : MinimalPlayerRatings}
    {age : ℤ} {pos : Option String} {s : σ} {v : ℤ}
    (hle : currentOvr r pos ≤ 100)
    (h : (bootstrapPot sport o r age pos s).1 = .ok v) : currentOvr r pos ≤ v := by
  simp only [bootstrapPot] at h
  split at h
  · simp only [Except.ok.injEq] at h
    omega
  · split at h
    · -- the regression-estimator path
      split at h
      · -- pos = none: a thrown error, not an ok result
        simp at h
      · -- pos = some p
        split at h
        · simp at h
        · simp only [currentOvr] at hle ⊢
          split at h
          · simp only [Except.ok.injEq] at h
            omega
          · rename_i hgt
            simp only [Except.ok.injEq] at h
            subst h
            have hle2 := not_lt.mp hgt
            refine le_bound_of _ _ ?_ hle
            rw [round_eq]
            refine Int.le_floor.mpr ?_
            linarith
    · -- the bootstrap-simulation path
      simp only [Except.ok.injEq] at h
      subst h
      have hlen : percentileIndex < (orderBy (runTrials o r age pos NUM_SIMULATIONS s).1).length := by
        rw [orderBy_length, runTrials_length, percentileIndex_eq]
        norm_num [NUM_SIMULATIONS]
      obtain ⟨s0, hs0⟩ := runTrials_mem o r age pos NUM_SIMULATIONS s _
        (orderBy_mem (getD_mem _ _ 0 hlen))
      rw [hs0]
      exact runTrial_ge o r age pos s0

lemma bootstrapPot_bounds {sport : Sport} {o : Overrides σ} {r : MinimalPlayerRatings}
    {age : ℤ} {pos : Option String} {s : σ} {v : ℤ}
    (hov : ∀ r q, 0 ≤ o.ovr r q ∧ o.ovr r q ≤ 100)
    (h0 : 0 ≤ currentOvr r pos) (h1 : currentOvr r pos ≤ 100)
    (h : (bootstrapPot sport o r age pos s).1 = .ok v) : 0 ≤ v ∧ v ≤ 100 := by
  simp only [bootstrapPot] at h
  split at h
  · simp only [Except.ok.injEq] at h
    omega
  · split at h
    · split at h
      · simp at h
      · split at h
        · simp at h
        · simp only [currentOvr] at h0 h1
          split at h
          · simp only [Except.ok.injEq] at h
            omega
          · simp only [Except.ok.injEq] at h
            subst h
            exact bound_bounds _
    · simp only [Except.ok.injEq] at h
      subst h
      have hlen : percentileIndex < (orderBy (runTrials o r age pos NUM_SIMULATIONS s).1).length := by
        rw [orderBy_length, runTrials_length, percentileIndex_eq]
        norm_num [NUM_SIMULATIONS]
      obtain ⟨s0, hs0⟩ := runTrials_mem o r age pos NUM_SIMULATIONS s _
        (orderBy_mem (getD_mem _ _ 0 hlen))
      rw [hs0]
      exact runTrial_bounds o hov r age pos s0 h0 h1

lemma computePots_spec (sport : Sport) (o : Overrides σ) (r : MinimalPlayerRatings) (age : ℤ) :
    ∀ (l : List String) (s : σ) (pots : List (String × ℤ)) (s' : σ),
      computePots sport o r age l s = .ok (pots, s') →
      pots.map Prod.fst = l ∧
      ∀ x ∈ pots, ∃ s0, (bootstrapPot sport o r age (some x.1) s0).1 = .ok x.2 := by
  intro l
  induction l with
  | nil =>
    intro s pots s' h
    simp only [computePots, Except.ok.injEq, Prod.mk.injEq] at h
    obtain ⟨rfl, rfl⟩ := h
    simp
  | cons q rest ih =>
    intro s pots s' h
    simp only [computePots] at h
    split at h
    · simp at h
    · rename_i v r1 s1 hbp
      split at h
      · simp at h
      · rename_i pots0 s2 hcp
        simp only [Except.ok.injEq, Prod.mk.injEq] at h
        obtain ⟨rfl, rfl⟩ := h
        obtain ⟨hkeys, hprops⟩ := ih s1 pots0 s2 hcp
        refine ⟨by simp [hkeys], ?_⟩
        intro x hx
        rcases List.mem_cons.mp hx with hx | hx
        · subst hx
          exact ⟨s, by rw [hbp]⟩
        · exact hprops x hx

lemma selectOvrs_fst (o : Overrides σ) (r : MinimalPlayerRatings) :
    ∀ (l : List String) (b : Option (String × ℤ)),
      (selectOvrs o r l b).1 = l.map fun q => (q, o.ovr r (some q)) := by
  intro l
  induction l with
  | nil => intro b; simp [selectOvrs]
  | cons q rest ih => intro b; simp [selectOvrs, ih]

lemma selectOvrs_best_spec (o : Overrides σ) (r : MinimalPlayerRatings)
    (P : String × ℤ → Prop) :
    ∀ (l : List String) (b : Option (String × ℤ)),
      (∀ x, b = some x → P x) →
      (∀ q, q ∈ l → q ∉ bannedPositions → P (q, o.ovr r (some q))) →
      ∀ x, (selectOvrs o r l b).2 = some x → P x := by
  intro l
  induction l with
  | nil =>
    intro b hb _ x hx
    simp only [selectOvrs] at hx
    exact hb x hx
  | cons q rest ih =>
    intro b hb hl x hx
    simp only [selectOvrs] at hx
    refine ih _ ?_ (fun q' hq' hb' => hl q' (List.mem_cons_of_mem _ hq') hb') x hx
    intro y hy
    split at hy
    · rename_i hel
      simp only [Bool.and_eq_true, Bool.not_eq_true', decide_eq_false_iff_not] at hel
      simp only [Option.some.injEq] at hy
      subst hy
      exact hl q (List.mem_cons_self q rest) hel.1
    · exact hb y hy

lemma selectOvrs_best_mono (o : Overrides σ) (r : MinimalPlayerRatings) :
    ∀ (l : List String) (b : Option (String × ℤ)) (x : String × ℤ), b = some x →
      ∃ y, (selectOvrs o r l b).2 = some y ∧ x.2 ≤ y.2 := by
  intro l
  induction l with
  | nil =>
    intro b x hb
    exact ⟨x, by simp [selectOvrs, hb], le_refl _⟩
  | cons q rest ih =>
    intro b x hb
    simp only [selectOvrs]
    split
    · rename_i hel
      subst hb
      simp only [Bool.and_eq_true, Bool.not_eq_true', decide_eq_false_iff_not,
        decide_eq_true_eq] at hel
      obtain ⟨y, hy, hle⟩ := ih _ (q, o.ovr r (some q)) rfl
      exact ⟨y, hy, le_trans (le_of_lt hel.2) hle⟩
    · exact ih _ x hb

lemma selectOvrs_best_ge (o : Overrides σ) (r : MinimalPlayerRatings) :
    ∀ (l : List String) (b : Option (String × ℤ)) (q : String),
      q ∈ l → q ∉ bannedPositions →
      ∃ y, (selectOvrs o r l b).2 = some y ∧ o.ovr r (some q) ≤ y.2 := by
  intro l
  induction l with
  | nil => intro b q hq; simp at hq
  | cons q0 rest ih =>
    intro b q hq hban
    rcases List.mem_cons.mp hq with hq | hq
    · subst hq
      simp only [selectOvrs]
      split
      · exact selectOvrs_best_mono o r rest _ (q, o.ovr r (some q)) rfl
      · rename_i hel
        cases b with
        | none =>
          exfalso
          apply hel
          simp [hban]
        | some bb =>
          have hvb : o.ovr r (some q) ≤ bb.2 := by
            by_contra hcon
            apply hel
            simp [hban, not_le.mp hcon]
          obtain ⟨y, hy, hle⟩ := selectOvrs_best_mono o r rest _ bb rfl
          exact ⟨y, hy, le_trans hvb hle⟩
    · simp only [selectOvrs]
      exact ih _ q hq hban

lemma develop_ok {sport : Sport} {o : Overrides σ} {p : Player} {years : ℕ}
    {newPlayer : Bool} {cr : ℚ} {skipPot : Bool} {s : σ} {p' : Player} {s' : σ}
    (h : develop sport o p years newPlayer cr skipPot s = .ok (p', s')) :
    ∃ r0 rF, p.ratings.getLast? = some r0 ∧
      (let st := (developLoopStep sport o years newPlayer cr)^[years]
        ⟨r0, r0.season - p.born_year, p.weight, s⟩
       developPost sport o p.pos st.ratings st.age skipPot st.rng = .ok (rF, s')) ∧
      p'.ratings.getLast? = some rF := by
  simp only [develop] at h
  split at h
  · simp at h
  · rename_i r0 hr0
    split at h
    · simp at h
    · rename_i rF s2 hpost
      simp only [Except.ok.injEq, Prod.mk.injEq] at h
      obtain ⟨rfl, rfl⟩ := h
      refine ⟨r0, rF, hr0, hpost, ?_⟩
      simp [finishDevelop, List.getLast?_concat]

lemma developPostBasketball_ok {sport : Sport} {o : Overrides σ} {pPos : Option String}
    {r1 : MinimalPlayerRatings} {age : ℤ} {s : σ} {rF : MinimalPlayerRatings} {s2 : σ}
    (h : developPostBasketball sport o pPos r1 age false s = .ok (rF, s2)) :
    rF.ovr = o.ovr r1 none ∧
    ∃ s0, (bootstrapPot sport o { r1 with ovr := o.ovr r1 none } age none s0).1 = .ok rF.pot := by
  simp only [developPostBasketball, Bool.false_eq_true, if_false] at h
  split at h
  · simp at h
  · rename_i r3 s3 hstep
    split at hstep
    · rename_i v rr sv hbp
      simp only [Except.ok.injEq, Prod.mk.injEq] at hstep
      obtain ⟨rfl, rfl⟩ := hstep
      cases pPos with
      | some ps =>
        simp only [Except.ok.injEq, Prod.mk.injEq] at h
        obtain ⟨rfl, rfl⟩ := h
        exact ⟨rfl, s, by rw [hbp]⟩
      | none =>
        simp only [Except.ok.injEq, Prod.mk.injEq] at h
        obtain ⟨rfl, rfl⟩ := h
        exact ⟨rfl, s, by rw [hbp]⟩
    · simp at hstep

lemma developPost_pos_override {sport : Sport} {o : Overrides σ} {pPos : Option String}
    {r1 : MinimalPlayerRatings} {age : ℤ} {skipPot : Bool} {s : σ}
    {rF : MinimalPlayerRatings} {s2 : σ} {ps : String} (hp : pPos = some ps)
    (h : developPost sport o pPos r1 age skipPot s = .ok (rF, s2)) : rF.pos = ps := by
  subst hp
  simp only [developPost] at h
  split at h
  · simp only [developPostBasketball] at h
    split at h
    · simp at h
    · rename_i r3 s3 hstep
      simp only [Except.ok.injEq, Prod.mk.injEq] at h
      obtain ⟨rfl, rfl⟩ := h
      rfl
  · simp only [developPostMulti] at h
    split at h
    · simp at h
    · rename_i r3 s3 hstep
      split at h
      · simp at h
      · rename_i best hbest
        simp only [Except.ok.injEq, Prod.mk.injEq] at h
        obtain ⟨rfl, rfl⟩ := h
        rfl

lemma developPostMulti_ok {sport : Sport} {o : Overrides σ} {pPos : Option String}
    {r1 : MinimalPlayerRatings} {age : ℤ} {s : σ} {rF : MinimalPlayerRatings} {s2 : σ}
    (h : developPostMulti sport o pPos r1 age false s = .ok (rF, s2)) :
    ∃ best, (selectOvrs o r1 o.POSITIONS none).2 = some best ∧
      rF.ovrs = o.POSITIONS.map (fun q => (q, o.ovr r1 (some q))) ∧
      rF.pots.map Prod.fst = o.POSITIONS ∧
      (∀ x ∈ rF.pots, ∃ s0,
        (bootstrapPot sport o { r1 with ovrs := (selectOvrs o r1 o.POSITIONS none).1 }
          age (some x.1) s0).1 = .ok x.2) ∧
      rF.ovr = lookupD rF.ovrs best.1 ∧
      rF.pot = lookupD rF.pots best.1 ∧
      (pPos = none → rF.pos = best.1) := by
  simp only [developPostMulti, Bool.false_eq_true, if_false] at h
  split at h
  · simp at h
  · rename_i r3 s3 hstep
    split at hstep
    · simp at hstep
    · rename_i potsList sp hcp
      simp only [Except.ok.injEq, Prod.mk.injEq] at hstep
      obtain ⟨rfl, rfl⟩ := hstep
      split at h
      · simp at h
      · rename_i best hbest
        have hsel := selectOvrs_fst o r1 o.POSITIONS none
        obtain ⟨hkeys, hprops⟩ := computePots_spec sport o _ age o.POSITIONS s potsList sp hcp
        cases pPos with
        | some ps =>
          simp only [Except.ok.injEq, Prod.mk.injEq] at h
          obtain ⟨rfl, rfl⟩ := h
          exact ⟨best, hbest, hsel, hkeys, hprops, rfl, rfl, by simp⟩
        | none =>
          simp only [Except.ok.injEq, Prod.mk.injEq] at h
          obtain ⟨rfl, rfl⟩ := h
          exact ⟨best, hbest, hsel, hkeys, hprops, rfl, rfl, fun _ => rfl⟩


lemma logLoop (years : ℕ) (np : Bool) (cr : ℚ) (r0 : MinimalPlayerRatings) (a0 w : ℤ)
    (L : List ℤ) :
    ∀ k : ℕ, (developLoopStep Sport.basketball logOverrides years np cr)^[k] ⟨r0, a0, w, L⟩ =
      ⟨r0, a0 + (if np = true ∨ 1 < years then (k : ℤ) else 0), w,
        L ++ (if np = true ∨ 1 < years then (List.range k).map (fun i => a0 + (i : ℤ) + 1)
              else List.replicate k a0)⟩ := by
  intro k
  induction k with
  | zero => simp
  | succ k ih =>
    rw [Function.iterate_succ_apply', ih]
    by_cases hc : np = true ∨ 1 < years
    · simp only [if_pos hc, developLoopStep, logOverrides]
      simp [List.range_succ, LoopState.mk.injEq, hc]
      ring
    · simp only [if_neg hc, developLoopStep, logOverrides]
      simp [LoopState.mk.injEq, hc]
      rw [← List.replicate_succ', List.replicate_succ]

lemma developPost_pot_ge {sport : Sport} {o : Overrides σ}
    (hov : ∀ r q, o.ovr r q ≤ 100) {pPos : Option String} {r1 : MinimalPlayerRatings}
    {age : ℤ} {s : σ} {rF : MinimalPlayerRatings} {s2 : σ}
    (h : developPost sport o pPos r1 age false s = .ok (rF, s2)) : rF.ovr ≤ rF.pot := by
  by_cases hsport : sport = Sport.basketball
  · simp only [developPost, if_pos hsport] at h
    obtain ⟨hovr, s0, hbp⟩ := developPostBasketball_ok h
    have hge := bootstrapPot_ge (by simpa [currentOvr] using hov r1 none) hbp
    simpa [currentOvr, hovr] using hge
  · simp only [developPost, if_neg hsport] at h
    obtain ⟨best, hbest, hovrs, hkeys, hpots, hovr, hpot, _⟩ := developPostMulti_ok h
    have hbP := selectOvrs_best_spec o r1
      (fun x => x.1 ∈ o.POSITIONS ∧ x.2 = o.ovr r1 (some x.1)) o.POSITIONS none
      (by simp) (fun q hq _ => ⟨hq, rfl⟩) best hbest
    have hmemK : best.1 ∈ rF.pots.map Prod.fst := by rw [hkeys]; exact hbP.1
    obtain ⟨s0, hbp⟩ := hpots _ (lookupD_mem_of_mem_keys _ _ hmemK)
    have hcur : currentOvr { r1 with ovrs := (selectOvrs o r1 o.POSITIONS none).1 }
        (some best.1) = o.ovr r1 (some best.1) := by
      simp [currentOvr, selectOvrs_fst, lookupD_map_self _ _ _ hbP.1]
    have hge := bootstrapPot_ge (by rw [hcur]; exact hov _ _) hbp
    rw [hcur] at hge
    rw [hovr, hpot, hovrs, lookupD_map_self _ _ _ hbP.1]
    exact hge

lemma developPost_bounds {sport : Sport} {o : Overrides σ}
    (hov : ∀ r q, 0 ≤ o.ovr r q ∧ o.ovr r q ≤ 100) {pPos : Option String}
    {r1 : MinimalPlayerRatings} {age : ℤ} {s : σ} {rF : MinimalPlayerRatings} {s2 : σ}
    (h : developPost sport o pPos r1 age false s = .ok (rF, s2)) :
    (0 ≤ rF.ovr ∧ rF.ovr ≤ 100) ∧ (0 ≤ rF.pot ∧ rF.pot ≤ 100) ∧
    (sport ≠ Sport.basketball →
      (∀ x ∈ rF.ovrs, 0 ≤ x.2 ∧ x.2 ≤ 100) ∧ (∀ x ∈ rF.pots, 0 ≤ x.2 ∧ x.2 ≤ 100)) := by
  by_cases hsport : sport = Sport.basketball
  · simp only [developPost, if_pos hsport] at h
    obtain ⟨hovr, s0, hbp⟩ := developPostBasketball_ok h
    have hb := bootstrapPot_bounds hov (by simpa [currentOvr] using (hov r1 none).1)
      (by simpa [currentOvr] using (hov r1 none).2) hbp
    exact ⟨by rw [hovr]; exact hov r1 none, hb, fun hc => absurd hsport hc⟩
  · simp only [developPost, if_neg hsport] at h
    obtain ⟨best, hbest, hovrs, hkeys, hpots, hovr, hpot, _⟩ := developPostMulti_ok h
    have hbP := selectOvrs_best_spec o r1
      (fun x => x.1 ∈ o.POSITIONS ∧ x.2 = o.ovr r1 (some x.1)) o.POSITIONS none
      (by simp) (fun q hq _ => ⟨hq, rfl⟩) best hbest
    have hcur : ∀ q, q ∈ o.POSITIONS →
        currentOvr { r1 with ovrs := (selectOvrs o r1 o.POSITIONS none).1 } (some q) =
          o.ovr r1 (some q) := by
      intro q hq
      simp [currentOvr, selectOvrs_fst, lookupD_map_self _ _ _ hq]
    have hpotsB : ∀ x ∈ rF.pots, 0 ≤ x.2 ∧ x.2 ≤ 100 := by
      intro x hx
      have hxk : x.1 ∈ o.POSITIONS := by
        rw [← hkeys]; exact List.mem_map_of_mem Prod.fst hx
      obtain ⟨s0, hbp⟩ := hpots x hx
      exact bootstrapPot_bounds hov (by rw [hcur _ hxk]; exact (hov _ _).1)
        (by rw [hcur _ hxk]; exact (hov _ _).2) hbp
    refine ⟨?_, ?_, fun _ => ⟨?_, hpotsB⟩⟩
    · rw [hovr, hovrs, lookupD_map_self _ _ _ hbP.1]
      exact hov _ _
    · have hmemK : best.1 ∈ rF.pots.map Prod.fst := by rw [hkeys]; exact hbP.1
      have hmem := lookupD_mem_of_mem_keys _ _ hmemK
      rw [hpot]
      exact hpotsB _ hmem
    · intro x hx
      rw [hovrs] at hx
      obtain ⟨q, hq, rfl⟩ := List.mem_map.mp hx
      exact hov _ _

lemma developPost_c8 {sport : Sport} {o : Overrides σ} (hs : sport ≠ Sport.basketball)
    {pPos : Option String} (hpos : pPos = none) {r1 : MinimalPlayerRatings}
    {age : ℤ} {s : σ} {rF : MinimalPlayerRatings} {s2 : σ}
    (h : developPost sport o pPos r1 age false s = .ok (rF, s2)) :
    rF.ovrs.map Prod.fst = o.POSITIONS ∧ rF.pots.map Prod.fst = o.POSITIONS ∧
    rF.pos ∈ o.POSITIONS ∧ rF.pos ∉ bannedPositions ∧
    (∀ q ∈ o.POSITIONS, q ∉ bannedPositions → lookupD rF.ovrs q ≤ lookupD rF.ovrs rF.pos) ∧
    rF.ovr = lookupD rF.ovrs rF.pos ∧ rF.pot = lookupD rF.pots rF.pos := by
  simp only [developPost, if_neg hs] at h
  obtain ⟨best, hbest, hovrs, hkeys, hpots, hovr, hpot, hposn⟩ := developPostMulti_ok h
  have hbP := selectOvrs_best_spec o r1
    (fun x => x.1 ∈ o.POSITIONS ∧ x.1 ∉ bannedPositions ∧ x.2 = o.ovr r1 (some x.1))
    o.POSITIONS none (by simp) (fun q hq hb => ⟨hq, hb, rfl⟩) best hbest
  have hpos' := hposn hpos
  refine ⟨?_, hkeys, ?_, ?_, ?_, ?_, ?_⟩
  · rw [hovrs]
    simp [List.map_map, Function.comp_def]
  · rw [hpos']; exact hbP.1
  · rw [hpos']; exact hbP.2.1
  · intro q hq hqb
    obtain ⟨y, hy, hley⟩ := selectOvrs_best_ge o r1 o.POSITIONS none q hq hqb
    rw [hbest] at hy
    obtain rfl := Option.some.inj hy
    rw [hpos', hovrs, lookupD_map_self _ _ _ hq, lookupD_map_self _ _ _ hbP.1, ← hbP.2.2]
    exact hley
  · rw [hpos']; exact hovr
  · rw [hpos']; exact hpot

/-! The claim theorems. -/

/-- C10: `bootstrapPot` never mutates its `ratings` argument: every
simulated season progression acts only on the per-trial deep copy, so
the caller-visible snapshot component of the result equals the input
snapshot on every path, including the error paths. -/
theorem c10_bootstrapPot_no_mutation (sport : Sport) (o : Overrides σ)
    (r : MinimalPlayerRatings) (age : ℤ) (pos : Option String) (s : σ) :
    (bootstrapPot sport o r age pos s).2.1 = r :=
  bootstrapPot_snapshot sport o r age pos s

/-- C2: for every call to `bootstrapPot` with age ≥ 29 the result is
exactly the current overall — `ratings.ovrs[pos]` when a position is
given, `ratings.ovr` otherwise — with no error, and the snapshot and
random state are untouched (no jitter draw, no simulation). -/
theorem c2_age29_returns_overall (sport : Sport) (o : Overrides σ)
    (r : MinimalPlayerRatings) (age : ℤ) (pos : Option String) (s : σ) (h : 29 ≤ age) :
    bootstrapPot sport o r age pos s =
      (.ok (match pos with
            | some p => lookupD r.ovrs p
            | none => r.ovr), r, s) :=
  bootstrapPot_age29 sport o r age pos s h

/-- C2 witness at age 30 with a position. -/
theorem c2_age29_witness :
    (29 : ℤ) ≤ 30 ∧
      bootstrapPot Sport.football sampleOverrides sampleRatings 30 (some "QB") () =
        (.ok (match some "QB" with
              | some p => lookupD sampleRatings.ovrs p
              | none => sampleRatings.ovr), sampleRatings, ()) :=
  ⟨by norm_num,
   c2_age29_returns_overall Sport.football sampleOverrides sampleRatings 30 (some "QB") ()
     (by norm_num)⟩

/-- C7: with the RegressionEstimator configured (football) and age < 29,
an unknown position code makes `bootstrapPot` throw the configuration
error with the snapshot (including its `pot` field) and the random
state unchanged, and a missing position throws the argument-contract
error, likewise without mutation. -/
theorem c7_regression_errors_no_mutation (o : Overrides σ) (r : MinimalPlayerRatings)
    (age : ℤ) (s : σ) (p : String) (hage : age < 29) (hp : coeffsByPos p = none) :
    bootstrapPot Sport.football o r age (some p) s =
      (.error ("Invalid position \"" ++ p ++ "\" in potEstimator"), r, s) ∧
    bootstrapPot Sport.football o r age none s =
      (.error "pos is required for potEstimator", r, s) :=
  ⟨bootstrapPot_badPos o r age s p hage hp, bootstrapPot_noPos o r age s hage⟩

/-- C7 witness at the unknown code "XX" and age 25. -/
theorem c7_witness :
    (25 : ℤ) < 29 ∧ coeffsByPos "XX" = none ∧
      (bootstrapPot Sport.football sampleOverrides sampleRatings 25 (some "XX") () =
        (.error ("Invalid position \"" ++ "XX" ++ "\" in potEstimator"), sampleRatings, ()) ∧
       bootstrapPot Sport.football sampleOverrides sampleRatings 25 none () =
        (.error "pos is required for potEstimator", sampleRatings, ())) :=
  ⟨by norm_num, rfl,
   c7_regression_errors_no_mutation sampleOverrides sampleRatings 25 () "XX" (by norm_num) rfl⟩

/-- C6: in `develop`'s per-iteration weight adjustment (applied only
for football), a candidate weight more than 10 above the current weight
yields exactly +10, more than 10 below yields exactly -10, within ±10
it is applied unchanged, and a candidate 15 above yields exactly +10;
the football loop step applies `clampWeight` to `genWeight`'s
candidate, while any other sport leaves the weight unchanged. -/
theorem c6_weight_clamp :
    (∀ oldWeight newWeight : ℤ,
      (newWeight - oldWeight > 10 → clampWeight oldWeight newWeight = oldWeight + 10) ∧
      (newWeight - oldWeight < -10 → clampWeight oldWeight newWeight = oldWeight - 10) ∧
      (-10 ≤ newWeight - oldWeight → newWeight - oldWeight ≤ 10 →
        clampWeight oldWeight newWeight = newWeight)) ∧
    (∀ oldWeight : ℤ, clampWeight oldWeight (oldWeight + 15) = oldWeight + 10) ∧
    (∀ (σ : Type) (o : Overrides σ) (years : ℕ) (np : Bool) (cr : ℚ) (st : LoopState σ),
      (developLoopStep Sport.football o years np cr st).weight =
        clampWeight st.weight
          (o.genWeight
            ((o.developSeason st.ratings
              (if np = true ∨ 1 < years then st.age + 1 else st.age) (some cr) st.rng).1.hgt)
            ((o.developSeason st.ratings
              (if np = true ∨ 1 < years then st.age + 1 else st.age) (some cr) st.rng).1.stre)) ∧
      (∀ sport : Sport, sport ≠ Sport.football →
        (developLoopStep sport o years np cr st).weight = st.weight)) := by
  refine ⟨?_, ?_, ?_⟩
  · intro ow nw
    refine ⟨fun h => ?_, fun h => ?_, fun h1 h2 => ?_⟩ <;>
      · simp only [clampWeight]
        repeat' split
        all_goals omega
  · intro ow
    simp only [clampWeight]
    repeat' split
    all_goals omega
  · intro τ o years np cr st
    constructor
    · rfl
    · intro sport hs
      simp [developLoopStep, hs]

/-- C6 witness: a candidate 15 units above a current weight of 200. -/
theorem c6_witness :
    (215 : ℤ) - 200 > 10 ∧ clampWeight 200 215 = 200 + 10 :=
  ⟨by norm_num, (c6_weight_clamp.1 200 215).1 (by norm_num)⟩

/-- C1: potential is never strictly less than the overall computed in the
same development pass: any ok value of `bootstrapPot` (regression path,
bootstrap path and the age ≥ 29 shortcut) is at least the current
overall whenever that overall is at most 100, and `develop` with
potential enabled stores `pot ≥ ovr` in the final ratings row whenever
the strategy's overall outputs are at most 100. -/
theorem c1_pot_ge_ovr (sport : Sport) (o : Overrides σ) :
    (∀ (r : MinimalPlayerRatings) (age : ℤ) (pos : Option String) (s : σ) (v : ℤ),
      currentOvr r pos ≤ 100 → (bootstrapPot sport o r age pos s).1 = .ok v →
      currentOvr r pos ≤ v) ∧
    (∀ (p : Player) (years : ℕ) (np : Bool) (cr : ℚ) (s : σ) (p' : Player) (s' : σ)
      (r' : MinimalPlayerRatings),
      (∀ r q, o.ovr r q ≤ 100) →
      develop sport o p years np cr false s = .ok (p', s') →
      p'.ratings.getLast? = some r' → r'.ovr ≤ r'.pot) := by
  constructor
  · intro r age pos s v hle h
    exact bootstrapPot_ge hle h
  · intro p years np cr s p' s' r' hov h hlast
    obtain ⟨r0, rF, hr0, hpost, hlast'⟩ := develop_ok h
    rw [hlast'] at hlast
    obtain rfl := Option.some.inj hlast
    exact developPost_pot_ge hov hpost

/-- C1 witness: the bootstrap path at age 27 returns 50, at least the
seeded overall 40. -/
theorem c1_witness :
    currentOvr sampleRatings (some "QB") ≤ 100 ∧
      (bootstrapPot Sport.basketball sampleOverrides sampleRatings 27 (some "QB") ()).1 =
        .ok 50 ∧
      currentOvr sampleRatings (some "QB") ≤ 50 := by
  have hbp : (bootstrapPot Sport.basketball sampleOverrides sampleRatings 27
      (some "QB") ()).1 = .ok 50 := by
    simp only [bootstrapPot, percentileIndex_eq]
    rfl
  exact ⟨by decide, hbp,
    (c1_pot_ge_ovr Sport.basketball sampleOverrides).1 sampleRatings 27 (some "QB") () 50
      (by decide) hbp⟩

/-- C3: assuming the strategy's overall outputs are integers in [0,100],
every produced value lies in [0,100]: any ok value of `bootstrapPot` on
a snapshot whose current overall is in [0,100]; `develop`'s stored ovr
and pot; and, for multi-position sports, every entry of the freshly
built ovrs and pots maps. -/
theorem c3_values_in_range (sport : Sport) (o : Overrides σ)
    (hov : ∀ r q, 0 ≤ o.ovr r q ∧ o.ovr r q ≤ 100) :
    (∀ (r : MinimalPlayerRatings) (age : ℤ) (pos : Option String) (s : σ) (v : ℤ),
      0 ≤ currentOvr r pos → currentOvr r pos ≤ 100 →
      (bootstrapPot sport o r age pos s).1 = .ok v → 0 ≤ v ∧ v ≤ 100) ∧
    (∀ (p : Player) (years : ℕ) (np : Bool) (cr : ℚ) (s : σ) (p' : Player) (s' : σ)
      (r' : MinimalPlayerRatings),
      develop sport o p years np cr false s = .ok (p', s') →
      p'.ratings.getLast? = some r' →
      (0 ≤ r'.ovr ∧ r'.ovr ≤ 100) ∧ (0 ≤ r'.pot ∧ r'.pot ≤ 100) ∧
      (sport ≠ Sport.basketball →
        (∀ x ∈ r'.ovrs, 0 ≤ x.2 ∧ x.2 ≤ 100) ∧
        (∀ x ∈ r'.pots, 0 ≤ x.2 ∧ x.2 ≤ 100))) := by
  constructor
  · intro r age pos s v h0 h1 h
    exact bootstrapPot_bounds hov h0 h1 h
  · intro p years np cr s p' s' r' h hlast
    obtain ⟨r0, rF, hr0, hpost, hlast'⟩ := develop_ok h
    rw [hlast'] at hlast
    obtain rfl := Option.some.inj hlast
    exact developPost_bounds hov hpost

/-- C3 witness: the bootstrap-path output 50 at age 27 is in [0,100]. -/
theorem c3_witness :
    (∀ r q, 0 ≤ sampleOverrides.ovr r q ∧ sampleOverrides.ovr r q ≤ 100) ∧
      (0 ≤ currentOvr sampleRatings (some "QB") ∧
        currentOvr sampleRatings (some "QB") ≤ 100) ∧
      (bootstrapPot Sport.basketball sampleOverrides sampleRatings 27 (some "QB") ()).1 =
        .ok 50 ∧
      (0 ≤ (50 : ℤ) ∧ (50 : ℤ) ≤ 100) := by
  have hbp : (bootstrapPot Sport.basketball sampleOverrides sampleRatings 27
      (some "QB") ()).1 = .ok 50 := by
    simp only [bootstrapPot, percentileIndex_eq]
    rfl
  have hov : ∀ r q, 0 ≤ sampleOverrides.ovr r q ∧ sampleOverrides.ovr r q ≤ 100 :=
    fun _ _ => ⟨by norm_num [sampleOverrides], by norm_num [sampleOverrides]⟩
  exact ⟨hov, ⟨by decide, by decide⟩, hbp,
    (c3_values_in_range Sport.basketball sampleOverrides hov).1 sampleRatings 27
      (some "QB") () 50 (by decide) (by decide) hbp⟩

/-- C4: in the bootstrap path (no regression estimator configured, age
< 29), `bootstrapPot` runs exactly `NUM_SIMULATIONS = 20` trials, sorts
the 20 per-trial maxima ascending, and returns the element at 0-indexed
position `⌊0.75 · 20⌋ = 15` of the sorted list. -/
theorem c4_percentile_selection (sport : Sport) (o : Overrides σ)
    (r : MinimalPlayerRatings) (age : ℤ) (pos : Option String) (s : σ)
    (hs : sport ≠ Sport.football) (hage : age < 29) :
    (runTrials o r age pos NUM_SIMULATIONS s).1.length = 20 ∧
    NUM_SIMULATIONS = 20 ∧
    percentileIndex = (⌊(0.75 : ℚ) * ((20 : ℕ) : ℚ)⌋).toNat ∧
    percentileIndex = 15 ∧
    (orderBy (runTrials o r age pos NUM_SIMULATIONS s).1).Sorted (· ≤ ·) ∧
    List.Perm (orderBy (runTrials o r age pos NUM_SIMULATIONS s).1)
      (runTrials o r age pos NUM_SIMULATIONS s).1 ∧
    bootstrapPot sport o r age pos s =
      (.ok ((orderBy (runTrials o r age pos NUM_SIMULATIONS s).1).getD 15 0), r,
        (runTrials o r age pos NUM_SIMULATIONS s).2) := by
  refine ⟨by rw [runTrials_length]; rfl, rfl, rfl, percentileIndex_eq,
    orderBy_sorted _, orderBy_perm _, ?_⟩
  simp only [bootstrapPot, if_neg (not_le.mpr hage), if_neg hs, percentileIndex_eq]

/-- C4 witness: the bootstrap path taken for basketball at age 27. -/
theorem c4_witness :
    Sport.basketball ≠ Sport.football ∧ (27 : ℤ) < 29 ∧
      ((runTrials sampleOverrides sampleRatings 27 (some "QB") NUM_SIMULATIONS ()).1.length = 20 ∧
       NUM_SIMULATIONS = 20 ∧
       percentileIndex = (⌊(0.75 : ℚ) * ((20 : ℕ) : ℚ)⌋).toNat ∧
       percentileIndex = 15 ∧
       (orderBy (runTrials sampleOverrides sampleRatings 27 (some "QB")
         NUM_SIMULATIONS ()).1).Sorted (· ≤ ·) ∧
       List.Perm (orderBy (runTrials sampleOverrides sampleRatings 27 (some "QB")
           NUM_SIMULATIONS ()).1)
         (runTrials sampleOverrides sampleRatings 27 (some "QB") NUM_SIMULATIONS ()).1 ∧
       bootstrapPot Sport.basketball sampleOverrides sampleRatings 27 (some "QB") () =
         (.ok ((orderBy (runTrials sampleOverrides sampleRatings 27 (some "QB")
            NUM_SIMULATIONS ()).1).getD 15 0), sampleRatings,
           (runTrials sampleOverrides sampleRatings 27 (some "QB") NUM_SIMULATIONS ()).2)) :=
  ⟨by decide, by decide,
   c4_percentile_selection Sport.basketball sampleOverrides sampleRatings 27 (some "QB") ()
     (by decide) (by decide)⟩

/-- C5: in `develop`'s years loop, when newPlayer is true or years > 1 the
age passed to the season-progression function is incremented before
each iteration (it sees a0+1, ..., a0+years); when developing exactly
one season for an existing player (years = 1, newPlayer false), every
iteration passes the entry age a0 = season - born.year unchanged.  The
ages are observed through the instrumented strategy `logOverrides`,
whose threaded state records the age argument of every `developSeason`
call. -/
theorem c5_age_increment (p : Player) (r0 : MinimalPlayerRatings)
    (h : p.ratings.getLast? = some r0) (years : ℕ) (newPlayer : Bool) (cr : ℚ) :
    ∃ p', develop Sport.basketball logOverrides p years newPlayer cr true [] =
      .ok (p', if newPlayer = true ∨ 1 < years
        then (List.range years).map (fun i => (r0.season - p.born_year) + (i : ℤ) + 1)
        else List.replicate years (r0.season - p.born_year)) := by
  simp only [develop, h]
  rw [logLoop years newPlayer cr r0 (r0.season - p.born_year) p.weight [] years]
  cases hpp : p.pos with
  | some ps =>
    simp [developPost, developPostBasketball, finishDevelop, hpp]
  | none =>
    simp [developPost, developPostBasketball, finishDevelop, hpp]

/-- C5 witness: one season for an existing player at entry age 25 logs
exactly [25] (no increment). -/
theorem c5_witness :
    tinyPlayer.ratings.getLast? = some tinyRatings ∧
      (∃ p', develop Sport.basketball logOverrides tinyPlayer 1 false 15.5 true [] =
        .ok (p', if false = true ∨ 1 < 1
          then (List.range 1).map (fun i => (tinyRatings.season - tinyPlayer.born_year) + (i : ℤ) + 1)
          else List.replicate 1 (tinyRatings.season - tinyPlayer.born_year))) :=
  ⟨rfl, c5_age_increment tinyPlayer tinyRatings rfl 1 false 15.5⟩

/-- C8: for a multi-position sport, `develop` stores an overall and a
potential entry for every valid position code in POSITIONS order
(including KR and PR), the chosen primary position is a valid position
outside the banned set {KR, PR}, its overall is maximal among the
non-banned positions, and the scalar ovr/pot fields are copied from its
entries. -/
theorem c8_positions (sport : Sport) (o : Overrides σ) (hs : sport ≠ Sport.basketball)
    (p : Player) (hpos : p.pos = none) (years : ℕ) (np : Bool) (cr : ℚ) (s : σ)
    (p' : Player) (s' : σ) (r' : MinimalPlayerRatings)
    (h : develop sport o p years np cr false s = .ok (p', s'))
    (hlast : p'.ratings.getLast? = some r') :
    r'.ovrs.map Prod.fst = o.POSITIONS ∧ r'.pots.map Prod.fst = o.POSITIONS ∧
    r'.pos ∈ o.POSITIONS ∧ r'.pos ∉ bannedPositions ∧
    (∀ q ∈ o.POSITIONS, q ∉ bannedPositions → lookupD r'.ovrs q ≤ lookupD r'.ovrs r'.pos) ∧
    r'.ovr = lookupD r'.ovrs r'.pos ∧ r'.pot = lookupD r'.pots r'.pos := by
  obtain ⟨r0, rF, hr0, hpost, hlast'⟩ := develop_ok h
  rw [hlast'] at hlast
  obtain rfl := Option.some.inj hlast
  exact developPost_c8 hs hpos hpost

/-- C8 witness: a football develop pass over POSITIONS = [QB, RB, KR, PR]
fills all four ovrs/pots entries and picks QB (KR and PR banned). -/
theorem c8_witness :
    Sport.football ≠ Sport.basketball ∧ fbPlayer.pos = none ∧
      develop Sport.football sampleOverrides fbPlayer 0 false 15.5 false () =
        .ok (fbPlayerDev, ()) ∧
      fbPlayerDev.ratings.getLast? = some fbRatingsDev ∧
      (fbRatingsDev.ovrs.map Prod.fst = sampleOverrides.POSITIONS ∧
       fbRatingsDev.pots.map Prod.fst = sampleOverrides.POSITIONS ∧
       fbRatingsDev.pos ∈ sampleOverrides.POSITIONS ∧
       fbRatingsDev.pos ∉ bannedPositions ∧
       (∀ q ∈ sampleOverrides.POSITIONS, q ∉ bannedPositions →
         lookupD fbRatingsDev.ovrs q ≤ lookupD fbRatingsDev.ovrs fbRatingsDev.pos) ∧
       fbRatingsDev.ovr = lookupD fbRatingsDev.ovrs fbRatingsDev.pos ∧
       fbRatingsDev.pot = lookupD fbRatingsDev.pots fbRatingsDev.pos) := by
  have hdev : develop Sport.football sampleOverrides fbPlayer 0 false 15.5 false () =
      .ok (fbPlayerDev, ()) := by rfl
  exact ⟨by decide, rfl, hdev, rfl,
    c8_positions Sport.football sampleOverrides (by decide) fbPlayer rfl 0 false 15.5 ()
      fbPlayerDev () fbRatingsDev hdev rfl⟩

/-- C9 counterexample: a manual override that is present but equal to the
empty string IS applied by develop (the stored position is "", not the
selector's "C"), so the claimed non-empty-string validation does not
exist in the code. -/
theorem c9_counterexample :
    develop Sport.basketball sampleOverrides tinyPlayer 0 false 15.5 true () =
      .ok (tinyPlayerDev, ()) ∧
    tinyPlayer.pos = some "" ∧
    tinyPlayerDev.ratings.getLast? = some tinyRatingsDev ∧
    tinyRatingsDev.pos = "" ∧
    sampleOverrides.pos tinyRatingsDev = "C" ∧
    tinyRatingsDev.pos ≠ sampleOverrides.pos tinyRatingsDev :=
  ⟨by rfl, rfl, rfl, rfl, rfl, by decide⟩

/-- C9 (amended): develop honors a manual position override whenever the
pos property is present with a string value, validating only that it is
a string — an override equal to the empty string is applied verbatim
rather than falling back to the position selector. -/
theorem c9_amended_override_applied (sport : Sport) (o : Overrides σ) (p : Player)
    (ps : String) (hp : p.pos = some ps) (years : ℕ) (np : Bool) (cr : ℚ)
    (skipPot : Bool) (s : σ) (p' : Player) (s' : σ)
    (h : develop sport o p years np cr skipPot s = .ok (p', s')) :
    ∃ r', p'.ratings.getLast? = some r' ∧ r'.pos = ps := by
  obtain ⟨r0, rF, hr0, hpost, hlast'⟩ := develop_ok h
  exact ⟨rF, hlast', developPost_pos_override hp hpost⟩

/-- C9 witness: the empty-string override is stored verbatim. -/
theorem c9_witness :
    tinyPlayer.pos = some "" ∧
      develop Sport.basketball sampleOverrides tinyPlayer 0 false 15.5 true () =
        .ok (tinyPlayerDev, ()) ∧
      (∃ r', tinyPlayerDev.ratings.getLast? = some r' ∧ r'.pos = "") := by
  have hdev : develop Sport.basketball sampleOverrides tinyPlayer 0 false 15.5 true () =
      .ok (tinyPlayerDev, ()) := by rfl
  exact ⟨rfl, hdev,
    c9_amended_override_applied Sport.basketball sampleOverrides tinyPlayer "" rfl 0 false
      15.5 true () tinyPlayerDev () hdev⟩
